import Mathlib

/-!
Verification of the watch machinery of `src/ui/src/app/shared/utils/watch.ts`.

The file shallow-embeds the parts of `watch.ts` that the checked claims are
about:

* plain JavaScript objects (`Obj`), JS object spread (`spread`), and
  `Array.prototype.findIndex` (`findIndexJs`);
* the `scan` accumulator of `useWatchList` (`scanStep`), which applies one
  decoded change event to the running collection;
* the in-place mutation of the one accumulator array through a heap of array
  references (`Heap`, `runActivation`), since the reducer mutates its array
  with `splice`, index assignment and `unshift` and rxjs `scan` captures the
  seed array reference once per pipe construction;
* the `bufferTime(500)` / `mergeMap` stage (`bufferedDeliveries`), whose
  buffered elements are references dereferenced at flush time;
* the `EventSource` callback wiring of `fromEventSource` (the `onmessage`
  and `onerror` handlers, and the 500 ms readyState poll);
* the notification-trace semantics of the `map(JSON.parse)` / `repeat()` /
  `retryWhen(delay 500)` stack (`mapDecodeRun`, `resilientTrace`);
* the effect body of `useWatch` (`useWatchRun`).
-/

set_option maxHeartbeats 1000000

namespace ArgoWatch

/-- Model of a JavaScript primitive value appearing in decoded JSON payloads. -/
inductive JVal where
  | str (s : String)
  | num (n : Int)
  | null
deriving DecidableEq, Repr

/-- Model of a plain JavaScript object: an ordered list of own fields.
Lookup (`List.lookup`) returns the value at the first occurrence of a key. -/
abbrev Obj := List (String × JVal)

/-- Override of two optional field values: the first (the overriding object's
field) wins when present.  Used to state what JS object spread does per key. -/
def ovr {α : Type} (x y : Option α) : Option α :=
  match x with
  | some v => some v
  | none => y

/-- Model of the JavaScript object spread so that `spread a b` denotes the
object literal with the fields of `a` spread first and the fields of `b`
spread second: keys of `a` keep their position with the value overridden by
`b` when `b` has the key, and keys of `b` not present in `a` are appended in
the order `b` lists them. -/
def spread (a b : Obj) : Obj :=
  a.map (fun p => (p.1, (List.lookup p.1 b).getD p.2)) ++
    b.filter (fun p => (List.lookup p.1 a).isNone)

/-- Model of `Array.prototype.findIndex`: the index of the first element
satisfying the predicate, `none` standing for the JS return value `-1`. -/
def findIndexJs {α : Type} (p : α → Bool) : List α → Option Nat
  | [] => none
  | x :: xs => if p x then some 0 else (findIndexJs p xs).map (· + 1)

/-- One step of the `scan` accumulator in `useWatchList`.  The source computes
`const index = items.findIndex((i) => findItem(i, change))` once and then
switches on `change.type` with cases `'Deleted'` and `'Updated'`; a JS
`switch` over string literals is an if-else chain of strict equalities, and a
missing or non-string `type` falls to the `default` arm.  `items.splice(index, 1)`
removes the element at `index`, `items[index] = v` replaces it in place, and
`items.unshift(v)` prepends. -/
def scanStep (findItem : Obj → Obj → Bool) (getItem : Obj → Obj)
    (items : List Obj) (change : Obj) : List Obj :=
  let index := findIndexJs (fun i => findItem i change) items
  if List.lookup "type" change = some (JVal.str "Deleted") then
    match index with
    | some i => items.eraseIdx i
    | none => items
  else if List.lookup "type" change = some (JVal.str "Updated") then
    match index with
    | some i => items.set i (spread (items.getD i []) (getItem change))
    | none => items
  else
    match index with
    | some i => items.set i (getItem change)
    | none => getItem change :: items

/-! Basic lemmas about the embedded JS primitives. -/

theorem findIndexJs_eq_none {α : Type} (p : α → Bool) (l : List α) :
    findIndexJs p l = none ↔ ∀ x ∈ l, p x = false := by
  induction l with
  | nil => simp [findIndexJs]
  | cons x xs ih =>
    by_cases hx : p x
    · simp [findIndexJs, hx]
    · simp only [findIndexJs, if_neg hx, Option.map_eq_none']
      rw [ih]
      constructor
      · intro h y hy
        rcases List.mem_cons.mp hy with hy' | hy'
        · subst hy'
          simpa using hx
        · exact h y hy'
      · intro h y hy
        exact h y (List.mem_cons_of_mem x hy)

theorem findIndexJs_eq_some {α : Type} (p : α → Bool) (d : α) :
    ∀ (l : List α) (i : Nat), findIndexJs p l = some i →
      i < l.length ∧ p (l.getD i d) = true := by
  intro l
  induction l with
  | nil => intro i h; simp [findIndexJs] at h
  | cons x xs ih =>
    intro i h
    by_cases hx : p x
    · simp [findIndexJs, hx] at h
      subst h
      simpa [List.getD] using hx
    · simp only [findIndexJs, if_neg hx] at h
      cases hrec : findIndexJs p xs with
      | none => rw [hrec] at h; simp at h
      | some j =>
        rw [hrec] at h
        simp at h
        subst h
        rcases ih j hrec with ⟨hlt, hp⟩
        exact ⟨by simpa using Nat.succ_lt_succ hlt, by simpa [List.getD] using hp⟩

theorem lookup_append (k : String) (xs ys : List (String × JVal)) :
    List.lookup k (xs ++ ys) = ovr (List.lookup k xs) (List.lookup k ys) := by
  induction xs with
  | nil => simp [ovr]
  | cons p t ih =>
    obtain ⟨k', v⟩ := p
    cases hkk : (k == k') with
    | true => simp [List.lookup, hkk, ovr]
    | false => simp [List.lookup, hkk, ih]

theorem lookup_map_override (k : String) (a b : Obj) :
    List.lookup k (a.map (fun p => (p.1, (List.lookup p.1 b).getD p.2))) =
      (List.lookup k a).map (fun v => (List.lookup k b).getD v) := by
  induction a with
  | nil => simp
  | cons p t ih =>
    obtain ⟨k', v⟩ := p
    cases hkk : (k == k') with
    | true =>
      have : k = k' := eq_of_beq hkk
      subst this
      simp [List.lookup, hkk]
    | false => simp [List.lookup, hkk, ih]

theorem lookup_filter_none (k : String) (a b : Obj) (h : List.lookup k a = none) :
    List.lookup k (b.filter (fun p => (List.lookup p.1 a).isNone)) = List.lookup k b := by
  induction b with
  | nil => simp
  | cons p t ih =>
    obtain ⟨k', v⟩ := p
    cases hkk : (k == k') with
    | true =>
      have hk : k = k' := eq_of_beq hkk
      subst hk
      simp [List.filter_cons, h, List.lookup, hkk]
    | false =>
      by_cases hkeep : (List.lookup k' a).isNone
      · simp [List.filter_cons, hkeep, List.lookup, hkk, ih]
      · simp [List.filter_cons, hkeep, List.lookup, hkk, ih]

/-- Per-key characterisation of JS object spread: for every key, the spread
object holds the second (overriding) object's value when it has the key, and
the first object's value otherwise. -/
theorem spread_lookup (a b : Obj) (k : String) :
    List.lookup k (spread a b) = ovr (List.lookup k b) (List.lookup k a) := by
  unfold spread
  rw [lookup_append, lookup_map_override]
  cases ha : List.lookup k a with
  | none =>
    rw [lookup_filter_none k a b ha]
    cases hb : List.lookup k b with
    | none => simp [ovr]
    | some w => simp [ovr]
  | some v =>
    cases hb : List.lookup k b with
    | none => simp [ovr]
    | some w => simp [ovr]

theorem getD_set_self {α : Type} (d : α) :
    ∀ (l : List α) (i : Nat) (v : α), i < l.length → (l.set i v).getD i d = v := by
  intro l
  induction l with
  | nil => intro i v h; simp at h
  | cons x xs ih =>
    intro i v h
    cases i with
    | zero => simp [List.getD]
    | succ n =>
      have hn : n < xs.length := by simpa using h
      simpa [List.getD] using (by simpa [List.getD] using ih n v hn)

theorem getD_set_ne {α : Type} (d : α) :
    ∀ (l : List α) (i j : Nat) (v : α), j ≠ i → (l.set i v).getD j d = l.getD j d := by
  intro l
  induction l with
  | nil => intro i j v _; simp
  | cons x xs ih =>
    intro i j v hne
    cases i with
    | zero =>
      cases j with
      | zero => exact absurd rfl hne
      | succ m => simp [List.getD]
    | succ n =>
      cases j with
      | zero => simp [List.getD]
      | succ m =>
        have : m ≠ n := fun h => hne (by simp [h])
        simpa [List.getD] using (by simpa [List.getD] using ih n m v this)

theorem countP_set_of_eq {α : Type} (p : α → Bool) (d : α) :
    ∀ (l : List α) (i : Nat) (v : α), i < l.length → p v = p (l.getD i d) →
      (l.set i v).countP p = l.countP p := by
  intro l
  induction l with
  | nil => intro i v h _; simp at h
  | cons x xs ih =>
    intro i v hlen hv
    cases i with
    | zero =>
      have hx : p v = p x := by simpa [List.getD] using hv
      simp [List.countP_cons, hx]
    | succ n =>
      have hn : n < xs.length := by simpa using hlen
      have hv' : p v = p (xs.getD n d) := by simpa [List.getD] using hv
      simp [List.countP_cons, ih n v hn hv']

/-! Mutable-array model.

The reducer of `useWatchList` is an accumulator over one JS array: the seed
of `scan(..., init || [])` is the caller's `init` array itself (or a fresh
`[]` allocated once when the pipe is built), every step mutates that array in
place (`splice`, `items[index] = ...`, `unshift`) and returns the same
reference, and rxjs `scan` stores the seed in the operator object built once
per `.pipe(...)` call, so every (re)subscription of the same pipe starts from
whatever the one array currently holds.  A heap maps array references (`Nat`)
to array contents. -/

/-- Heap of JS arrays of objects, addressed by reference. -/
abbrev Heap := Nat → List Obj

/-- Write the array at reference `r`. -/
def heapWrite (h : Heap) (r : Nat) (v : List Obj) : Heap :=
  fun x => if x = r then v else h x

/-- One `scan` accumulator call performed on the heap: the reducer reads the
array at the seed reference `r`, mutates it in place to the new collection and
returns the same reference. -/
def scanStepAt (findItem : Obj → Obj → Bool) (getItem : Obj → Obj)
    (h : Heap) (r : Nat) (change : Obj) : Heap :=
  heapWrite h r (scanStep findItem getItem (h r) change)

/-- One activation of the subscribed reducer pipeline: the decoded change
events of the activation are folded in arrival order into the array at the
seed reference `r`. -/
def runActivation (findItem : Obj → Obj → Bool) (getItem : Obj → Obj)
    (h : Heap) (r : Nat) (events : List Obj) : Heap :=
  events.foldl (fun hh e => scanStepAt findItem getItem hh r e) h

/-- State a freshly created `scan` subscriber starts from.  The operator
object built by `scan(reducer, init || [])` captured the seed array reference
`r` once when the pipe was constructed; a later subscription of the same pipe
(the visibility gate calls `src().subscribe(...)` on the same `watch`
observable after the page becomes visible again) begins the fold from the
contents currently stored at `r`. -/
def restartFoldStart (h : Heap) (r : Nat) : List Obj :=
  h r

/-- The sequence of folded snapshot states the reducer passes through, one
state per processed change event. -/
def scanStates (findItem : Obj → Obj → Bool) (getItem : Obj → Obj) :
    List Obj → List Obj → List (List Obj)
  | _, [] => []
  | st, e :: es =>
    let st' := scanStep findItem getItem st e
    st' :: scanStates findItem getItem st' es

/-- The `bufferTime(BUFFER_TIME)` / `mergeMap((l) => l)` stage followed by the
subscriber's copy `setItems([...l])`.  Time is modelled by grouping the event
sequence into consecutive 500 ms windows.  During a window the scan stage
emits the accumulator reference `r` once per event; `bufferTime` collects
those references and flushes at the window's close, `mergeMap` then emits each
buffered element, and the subscriber copies the array the reference points to
at that moment — after all of the window's events have been folded. -/
def bufferedDeliveries (findItem : Obj → Obj → Bool) (getItem : Obj → Obj) :
    Heap → Nat → List (List Obj) → List (List Obj)
  | _, _, [] => []
  | h, r, w :: ws =>
    let h' := runActivation findItem getItem h r w
    ((w.map (fun _ => r)).map (fun ref => h' ref)) ++
      bufferedDeliveries findItem getItem h' r ws

theorem runActivation_append (findItem : Obj → Obj → Bool) (getItem : Obj → Obj)
    (h : Heap) (r : Nat) (es₁ es₂ : List Obj) :
    runActivation findItem getItem h r (es₁ ++ es₂) =
      runActivation findItem getItem (runActivation findItem getItem h r es₁) r es₂ := by
  simp [runActivation, List.foldl_append]

/-! Event source adapter callback model.

`fromEventSource` wires the `EventSource` callbacks to the rx observer.  A
handler call is modelled by the observer notifications it performs and by the
value it returns; the transport invokes a handler and discards its return
value, so only performed notifications reach the observer. -/

/-- A notification performed on the observer of `fromEventSource`. -/
inductive ObsCall where
  | next (data : String)
  | error (e : String)
  | complete
deriving DecidableEq, Repr

/-- Result of calling an event handler: the observer notifications the call
performs, and the value the handler returns (a closure, when the handler body
is itself an arrow function). -/
structure HandlerCallResult where
  performed : List ObsCall
  returned : Option (Unit → List ObsCall)

/-- The `onmessage` handler as in the source, `(msg) => observer.next(msg.data)`:
calling it performs one `next` notification. -/
def onmessageHandlerCall (data : String) : HandlerCallResult :=
  { performed := [ObsCall.next data], returned := none }

/-- The `onerror` handler exactly as in the source,
`(e) => () => { observer.error(e); }`: applying the outer arrow to `e` only
builds the inner closure — evaluating an arrow-function literal performs no
calls — and returns it.  No observer notification is performed. -/
def onerrorHandlerCall (e : String) : HandlerCallResult :=
  { performed := [], returned := some (fun _ => [ObsCall.error e]) }

/-- What the observer receives when the transport fires its error callback:
the transport calls `this.onerror(event)` and discards the returned value, so
only the notifications performed during the call arrive. -/
def transportErrorDispatch (e : String) : List ObsCall :=
  (onerrorHandlerCall e).performed

/-- The 500 ms readyState poll of `fromEventSource`: when the event source is
still alive (`eventSource` non-null) and its readyState is `CLOSED` (2), the
tick performs an explicit error notification. -/
def pollTick (readyState : Option Nat) : List ObsCall :=
  match readyState with
  | some s => if s = 2 then [ObsCall.error "connection got closed unexpectedly"] else []
  | none => []

/-! Notification-trace model of the resilient stream.

`useWatchList` and `useWatch` both build
`fromEventSource(url).pipe(map((res) => JSON.parse(res).result)).pipe(repeat(), retryWhen((errors) => errors.pipe(delay(500))), ...)`.
A source activation (one `EventSource` connection) is a finite list of rx
notifications of raw payload strings; resubscription — by `repeat()` on
completion, or by `retryWhen` after an error — consumes the next activation
from the supply. -/

/-- An rx notification carrying values of type `α`. -/
inductive Notif (α : Type) where
  | next (a : α)
  | error (e : String)
  | complete
deriving DecidableEq, Repr

/-- The `map((res) => JSON.parse(res).result)` stage over one activation.
`JSON.parse` is a JS builtin; it is modelled as a fallible `decode` function
(invalid JSON throws, which rx `map` converts into an error notification and
forwards, ending the activation's output).  The result is the list of decoded
values emitted and the terminal notification, if the activation ended with
one. -/
def mapDecodeRun (decode : String → Except String Obj) :
    List (Notif String) → List Obj × Option (Notif Obj)
  | [] => ([], none)
  | Notif.next s :: rest =>
    match decode s with
    | Except.ok v =>
      let p := mapDecodeRun decode rest
      (v :: p.1, p.2)
    | Except.error e => ([], some (Notif.error e))
  | Notif.error e :: _ => ([], some (Notif.error e))
  | Notif.complete :: _ => ([], some Notif.complete)

/-- The trace downstream of `repeat()` and `retryWhen((errors) => errors.pipe(delay(500)))`.
On a `complete` from the decoded source, `repeat()` forwards nothing and
resubscribes; on an `error`, `repeat()` forwards it and `retryWhen` consumes
it, waits 500 ms and resubscribes — the delayed notifier never completes or
errors, so no error is ever forwarded downstream.  An activation that has not
terminated yet simply keeps the stream open (the cutoff of the finite model).
The third arm is unreachable — `mapDecodeRun` never produces a `next` as its
terminal — and is kept only to make the match total. -/
def resilientTrace (decode : String → Except String Obj) :
    List (List (Notif String)) → List (Notif Obj)
  | [] => []
  | a :: as =>
    match mapDecodeRun decode a with
    | (vs, some Notif.complete) => vs.map Notif.next ++ resilientTrace decode as
    | (vs, some (Notif.error _)) => vs.map Notif.next ++ resilientTrace decode as
    | (vs, some (Notif.next _)) => vs.map Notif.next
    | (vs, none) => vs.map Notif.next

/-- Whether a notification is a `next`. -/
def isNextN {α : Type} : Notif α → Bool
  | Notif.next _ => true
  | _ => false

/-- Whether a notification is an `error`. -/
def isErrorN {α : Type} : Notif α → Bool
  | Notif.error _ => true
  | _ => false

/-- The `error` state flag of `useWatchList` for a given run of the pipeline.
The stages below `retryWhen` — `scan`, `bufferTime`, `mergeMap` and the
`handlePageVisibility` wrapper — forward error notifications unchanged to the
final subscriber, whose error callback is `() => setError(true)`.  The flag is
therefore set exactly when an error notification appears downstream of the
retry layer. -/
def listWatchErrorFlag (decode : String → Except String Obj)
    (supply : List (List (Notif String))) : Bool :=
  (resilientTrace decode supply).any (fun n => isErrorN n)

/-- The payload of a `next` notification. -/
def nextValue : Notif Obj → Option Obj
  | Notif.next v => some v
  | _ => none

/-- Number of `EventSource` connections the resilient stream opens for a given
activation supply: each consumed activation is one connection, and a new one
is opened after every completion (`repeat`) or error (`retryWhen`). -/
def activationsUsed (decode : String → Except String Obj) :
    List (List (Notif String)) → Nat
  | [] => 0
  | a :: as =>
    match (mapDecodeRun decode a).2 with
    | some Notif.complete => 1 + activationsUsed decode as
    | some (Notif.error _) => 1 + activationsUsed decode as
    | _ => 1

/-- Observable outcome of one mounted `useWatch` effect. -/
structure UseWatchRun where
  connectionsOpened : Nat
  deliveries : List Obj
deriving DecidableEq, Repr

/-- Model of the effect body of `useWatch(url, subscribe, timeoutAfter)`.  The
body starts with `if (!subscribe) { return; }`: nothing is built or
subscribed, so no connection is opened and `setItem` is never called.
Otherwise the pipeline is built and subscribed; its scalar `scan` replaces the
current value with each decoded update (each a fresh object), and
`bufferTime`/`mergeMap` forward every buffered value, so the deliveries are
exactly the decoded values downstream of the retry layer.  The `timeout`
operator only limits how long the run lasts and is not reflected in the
untimed trace model. -/
def useWatchRun (url : String) (subscribe : Bool) (timeoutAfter : Option Int)
    (decode : String → Except String Obj)
    (supply : List (List (Notif String))) : UseWatchRun :=
  if subscribe = false then
    { connectionsOpened := 0, deliveries := [] }
  else
    { connectionsOpened := activationsUsed decode supply,
      deliveries := (resilientTrace decode supply).filterMap nextValue }

/-! Concrete fixtures used by witnesses and counterexamples. -/

/-- Key of an item or change: its `id` field (JS `undefined` as `null`). -/
def keyId (o : Obj) : JVal :=
  (List.lookup "id" o).getD JVal.null

/-- A caller-supplied identity predicate comparing `id` fields. -/
def fiId (i c : Obj) : Bool :=
  decide (keyId i = keyId c)

/-- A caller-supplied extraction function projecting the `id` field. -/
def giId (c : Obj) : Obj :=
  [("id", (List.lookup "id" c).getD JVal.null)]

/-- A caller-supplied extraction function dropping the `type` field. -/
def giCopy (c : Obj) : Obj :=
  c.filter (fun p => !(p.1 == "type"))

/-- Change event without a `type` field for the item with id 1. -/
def ev1 : Obj := [("id", JVal.num 1)]

/-- Change event without a `type` field for the item with id 2. -/
def ev2 : Obj := [("id", JVal.num 2)]

/-- A `Deleted` change event for the item with id 1. -/
def evDel1 : Obj := [("type", JVal.str "Deleted"), ("id", JVal.num 1)]

/-- The item with id 1. -/
def obj1 : Obj := [("id", JVal.num 1)]

/-- Heap whose every array holds the single item `obj1`. -/
def heapObj1 : Heap := fun _ => [obj1]

/-- Heap whose every array is empty — in particular the seed array `[]` that
`init || []` allocates when the caller passes no initial list. -/
def heapEmpty : Heap := fun _ => []

/-- A decode function failing on every payload, as `JSON.parse` does on a
payload that is not valid JSON. -/
def decodeFailAll : String → Except String Obj :=
  fun _ => Except.error "SyntaxError: unexpected token"

/-! Helper lemmas for the trace model. -/

theorem map_next_all_isNext (vs : List Obj) :
    ((vs.map Notif.next).all fun n => isNextN n) = true := by
  induction vs with
  | nil => rfl
  | cons v t ih =>
    simp only [List.map_cons, List.all_cons, Bool.and_eq_true]
    exact ⟨rfl, ih⟩

theorem resilientTrace_all_isNext (decode : String → Except String Obj)
    (supply : List (List (Notif String))) :
    ((resilientTrace decode supply).all fun n => isNextN n) = true := by
  induction supply with
  | nil => rfl
  | cons a as ih =>
    simp only [resilientTrace]
    rcases hm : mapDecodeRun decode a with ⟨vs, t⟩
    cases t with
    | none => exact map_next_all_isNext vs
    | some n =>
      cases n with
      | next v => exact map_next_all_isNext vs
      | error e => simp [List.all_append, map_next_all_isNext vs, ih]
      | complete => simp [List.all_append, map_next_all_isNext vs, ih]

theorem any_isError_false_of_all_isNext {α : Type} (l : List (Notif α))
    (h : (l.all fun n => isNextN n) = true) : (l.any fun n => isErrorN n) = false := by
  induction l with
  | nil => rfl
  | cons x t ih =>
    simp only [List.all_cons, Bool.and_eq_true] at h
    cases x with
    | next v => simpa [List.any_cons, isErrorN] using ih h.2
    | error e => simp [isNextN] at h
    | complete => simp [isNextN] at h

/-! The claims. -/

/-- C1: the claim states that whenever the transport invokes the error
callback of `fromEventSource` with an error `e`, the adapter invokes
`observer.error`.  The handler in the source is
`eventSource.onerror = (e) => () => { observer.error(e); }`: calling it only
builds the inner closure and returns it, the transport discards that return
value, and no observer notification is performed — the transport-level error
callback is silently ignored.  Had the inner closure been invoked, it would
have performed exactly the `error e` notification the claim requires. -/
theorem C1_transport_error_silently_dropped :
    transportErrorDispatch "network failure" = [] ∧
      ObsCall.error "network failure" ∉ transportErrorDispatch "network failure" ∧
      ((onerrorHandlerCall "network failure").returned.getD (fun _ => [])) () =
        [ObsCall.error "network failure"] :=
  ⟨rfl, by decide, rfl⟩

/-- C2: the claim states that after a visibility-hidden teardown followed by a
visibility-visible restart, the restarted fold begins from the configured
initial value.  With no caller-supplied `init` the configured initial value is
the empty list, but after one activation has folded the change event `ev1`
into the (mutated, shared) seed array, the restarted `scan` subscriber begins
from `[giId ev1]`, the state accumulated before the page was hidden — not
from the initial `[]`. -/
theorem C2_restart_resumes_mutated_seed :
    restartFoldStart (runActivation fiId giId heapEmpty 0 [ev1]) 0 = [giId ev1] ∧
      restartFoldStart (runActivation fiId giId heapEmpty 0 [ev1]) 0 ≠ heapEmpty 0 := by
  constructor
  · decide
  · decide

/-- C4: a `Deleted` change event whose key matches no entry leaves the
collection unchanged, and applying the same `Deleted` event twice yields the
same collection as applying it once. -/
theorem C4_deleted_no_match_idempotent
    (findItem : Obj → Obj → Bool) (getItem : Obj → Obj)
    (items : List Obj) (change : Obj)
    (htype : List.lookup "type" change = some (JVal.str "Deleted"))
    (hnone : ∀ x ∈ items, findItem x change = false) :
    scanStep findItem getItem items change = items ∧
      scanStep findItem getItem (scanStep findItem getItem items change) change =
        scanStep findItem getItem items change := by
  have hidx : findIndexJs (fun i => findItem i change) items = none :=
    (findIndexJs_eq_none _ _).mpr hnone
  have h1 : scanStep findItem getItem items change = items := by
    simp [scanStep, htype, hidx]
  exact ⟨h1, by rw [h1]; exact h1⟩

/-- Witness for C4: deleting id 1 from a collection holding only id 2 is a
no-op, twice as well as once. -/
theorem C4_deleted_no_match_idempotent_witness :
    scanStep fiId giId [[("id", JVal.num 2)]] evDel1 = [[("id", JVal.num 2)]] ∧
      scanStep fiId giId (scanStep fiId giId [[("id", JVal.num 2)]] evDel1) evDel1 =
        scanStep fiId giId [[("id", JVal.num 2)]] evDel1 :=
  C4_deleted_no_match_idempotent fiId giId [[("id", JVal.num 2)]] evDel1
    (by decide) (by decide)

/-- C9: with `subscribe = false`, the effect body of `useWatch` returns before
building anything: no `EventSource` connection is opened, no delivery is ever
made, and the exposed value stays the default empty record, for any URL, any
timeout argument, any decode behaviour and any transport activity. -/
theorem C9_no_subscribe_no_connection (url : String) (timeoutAfter : Option Int)
    (decode : String → Except String Obj) (supply : List (List (Notif String))) :
    useWatchRun url false timeoutAfter decode supply =
        { connectionsOpened := 0, deliveries := [] } ∧
      ((useWatchRun url false timeoutAfter decode supply).deliveries.getLast?.getD [] : Obj)
        = [] :=
  ⟨rfl, rfl⟩

/-- C10 (amended): the fold steps of `useWatchList` mutate the caller-owned
seed array in place: after any activation, the array at the caller's reference
holds exactly the folded snapshot of the processed events, and no other array
is touched. -/
theorem C10_caller_array_mutated_in_place
    (findItem : Obj → Obj → Bool) (getItem : Obj → Obj)
    (h : Heap) (r : Nat) (events : List Obj) :
    (runActivation findItem getItem h r events) r =
        events.foldl (scanStep findItem getItem) (h r) ∧
      ∀ q, q ≠ r → (runActivation findItem getItem h r events) q = h q := by
  induction events generalizing h with
  | nil => exact ⟨rfl, fun _ _ => rfl⟩
  | cons e es ih =>
    constructor
    · have h1 := (ih (scanStepAt findItem getItem h r e)).1
      simp only [runActivation, List.foldl_cons] at h1 ⊢
      rw [h1]
      simp [scanStepAt, heapWrite]
    · intro q hq
      have h2 := (ih (scanStepAt findItem getItem h r e)).2 q hq
      simp only [runActivation, List.foldl_cons] at h2 ⊢
      rw [h2]
      simp [scanStepAt, heapWrite, hq]

/-- Witness for C10 (amended): one default-type event folded into the caller's
array at reference 0 leaves the caller's array holding the folded snapshot and
the unrelated array at reference 1 untouched. -/
theorem C10_caller_array_mutated_in_place_witness :
    (runActivation fiId giId heapObj1 0 [ev1]) 0 =
        [ev1].foldl (scanStep fiId giId) (heapObj1 0) ∧
      (runActivation fiId giId heapObj1 0 [ev1]) 1 = heapObj1 1 := by
  have h := C10_caller_array_mutated_in_place fiId giId heapObj1 0 [ev1]
  exact ⟨h.1, h.2 1 (by decide)⟩

/-- Counterexample to C10 as stated: starting from the caller's array
`[obj1]`, the `Deleted` event for id 1 empties it, and the following
default-type event for id 1 changes the snapshot again (from `[]` to
`[obj1]`) — yet after processing it the caller's array holds its original
contents, so it is not true that after every snapshot-changing event the
caller's array differs from its original contents. -/
theorem C10_counterexample :
    scanStep fiId giId (List.foldl (scanStep fiId giId) [obj1] [evDel1]) ev1 ≠
        List.foldl (scanStep fiId giId) [obj1] [evDel1] ∧
      (runActivation fiId giId heapObj1 0 [evDel1, ev1]) 0 = heapObj1 0 := by
  constructor
  · decide
  · decide

/-- Counterexample to C3 as stated: with the two default-type events `ev1`
and `ev2` arriving within one buffer window, the reducer passes through the
distinct snapshot state `[giId ev1]`, but because every buffered emission is
the same mutated accumulator reference, the deliveries of the window are two
copies of the window-final state and the intermediate state is never
delivered. -/
theorem C3_counterexample :
    [giId ev1] ∈ scanStates fiId giId [] [ev1, ev2] ∧
      [giId ev1] ∉ bufferedDeliveries fiId giId heapEmpty 0 [[ev1, ev2]] := by
  constructor
  · decide
  · decide

/-- C8 (amended): a payload that is not valid JSON makes the decode stage emit
an error notification, and `retryWhen((errors) => errors.pipe(delay(500)))`
sits downstream of the decode `map`, so it catches the error and resubscribes
the source after the delay: downstream of the retry layer only `next`
notifications ever appear, the list watch's error flag is never set by a
decode failure, and the failing activation is simply replaced by the next
activation of the retried source. -/
theorem C8_decode_failure_absorbed_by_retry
    (decode : String → Except String Obj) (supply : List (List (Notif String))) :
    ((resilientTrace decode supply).all fun n => isNextN n) = true ∧
      listWatchErrorFlag decode supply = false ∧
      ∀ s e rest, decode s = Except.error e →
        resilientTrace decode ([Notif.next s] :: rest) = resilientTrace decode rest := by
  refine ⟨resilientTrace_all_isNext decode supply,
    any_isError_false_of_all_isNext _ (resilientTrace_all_isNext decode supply), ?_⟩
  intro s e rest hde
  simp [resilientTrace, mapDecodeRun, hde]

/-- Witness for C8 (amended): a single activation delivering the non-JSON
payload leaves the error flag false and behaves as a bare retry. -/
theorem C8_decode_failure_absorbed_by_retry_witness :
    listWatchErrorFlag decodeFailAll [[Notif.next "not json"]] = false ∧
      resilientTrace decodeFailAll [[Notif.next "not json"]] =
        resilientTrace decodeFailAll [] := by
  have h := C8_decode_failure_absorbed_by_retry decodeFailAll [[Notif.next "not json"]]
  exact ⟨h.2.1, h.2.2 "not json" "SyntaxError: unexpected token" [] rfl⟩

/-- Counterexample to C8 as stated: the payload fails to decode, yet the list
watch's error flag is false — the decode failure was caught by the retry
layer, not turned into a terminal pipeline error. -/
theorem C8_counterexample :
    decodeFailAll "not json" = Except.error "SyntaxError: unexpected token" ∧
      listWatchErrorFlag decodeFailAll [[Notif.next "not json"]] = false :=
  ⟨rfl, rfl⟩

/-- C5: an `Updated` change event replaces the first entry matched by the
identity predicate, at its position, by the shallow merge of the existing
entry with the fields extracted from the change — per key, the change's
extracted fields win and the existing entry's fields fill the rest — leaving
length and all other positions unchanged; when no entry matches, the
collection is left unchanged. -/
theorem C5_updated_merge_semantics
    (findItem : Obj → Obj → Bool) (getItem : Obj → Obj)
    (items : List Obj) (change : Obj)
    (htype : List.lookup "type" change = some (JVal.str "Updated")) :
    ((∀ x ∈ items, findItem x change = false) →
        scanStep findItem getItem items change = items) ∧
      ∀ i, findIndexJs (fun x => findItem x change) items = some i →
        (scanStep findItem getItem items change).length = items.length ∧
          (∀ j, j ≠ i →
            (scanStep findItem getItem items change).getD j [] = items.getD j []) ∧
          ∀ k, List.lookup k ((scanStep findItem getItem items change).getD i []) =
            ovr (List.lookup k (getItem change)) (List.lookup k (items.getD i [])) := by
  constructor
  · intro hnone
    have hidx : findIndexJs (fun x => findItem x change) items = none :=
      (findIndexJs_eq_none _ _).mpr hnone
    simp [scanStep, htype, hidx]
  · intro i hidx
    have hred : scanStep findItem getItem items change =
        items.set i (spread (items.getD i []) (getItem change)) := by
      simp [scanStep, htype, hidx]
    have hlt := (findIndexJs_eq_some (fun x => findItem x change) ([] : Obj) items i hidx).1
    refine ⟨by rw [hred]; exact List.length_set items i _, ?_, ?_⟩
    · intro j hj
      rw [hred]
      exact getD_set_ne ([] : Obj) items i j _ hj
    · intro k
      rw [hred, getD_set_self ([] : Obj) items i _ hlt, spread_lookup]

/-- Witness for C5, the spec's scenario: initial list holding the object with
id 1 and name "a", an `Updated` event with id 1 and name "b"; the entry is
replaced in place by the merge whose fields are won by the change. -/
theorem C5_updated_merge_semantics_witness :
    (scanStep fiId giCopy
        [[("id", JVal.num 1), ("name", JVal.str "a")]]
        [("type", JVal.str "Updated"), ("id", JVal.num 1), ("name", JVal.str "b")]).length
      = 1 ∧
      List.lookup "name"
        ((scanStep fiId giCopy
            [[("id", JVal.num 1), ("name", JVal.str "a")]]
            [("type", JVal.str "Updated"), ("id", JVal.num 1), ("name", JVal.str "b")]).getD 0 [])
        = ovr
            (List.lookup "name"
              (giCopy [("type", JVal.str "Updated"), ("id", JVal.num 1), ("name", JVal.str "b")]))
            (List.lookup "name"
              ([[("id", JVal.num 1), ("name", JVal.str "a")]].getD 0 [])) := by
  have h := C5_updated_merge_semantics fiId giCopy
    [[("id", JVal.num 1), ("name", JVal.str "a")]]
    [("type", JVal.str "Updated"), ("id", JVal.num 1), ("name", JVal.str "b")] (by decide)
  have h2 := h.2 0 (by decide)
  exact ⟨h2.1, h2.2.2 "name"⟩

/-- C6: a change event whose type is neither `Deleted` nor `Updated`
(including `Added` and a missing type) replaces the first matched entry in
place — same position, same length, other positions untouched — with the item
extracted from the change; when no entry matches, exactly the extracted item
is prepended to the collection. -/
theorem C6_default_replace_or_prepend
    (findItem : Obj → Obj → Bool) (getItem : Obj → Obj)
    (items : List Obj) (change : Obj)
    (hD : List.lookup "type" change ≠ some (JVal.str "Deleted"))
    (hU : List.lookup "type" change ≠ some (JVal.str "Updated")) :
    ((∀ x ∈ items, findItem x change = false) →
        scanStep findItem getItem items change = getItem change :: items) ∧
      ∀ i, findIndexJs (fun x => findItem x change) items = some i →
        (scanStep findItem getItem items change).length = items.length ∧
          (scanStep findItem getItem items change).getD i [] = getItem change ∧
          ∀ j, j ≠ i →
            (scanStep findItem getItem items change).getD j [] = items.getD j [] := by
  constructor
  · intro hnone
    have hidx : findIndexJs (fun x => findItem x change) items = none :=
      (findIndexJs_eq_none _ _).mpr hnone
    simp [scanStep, hD, hU, hidx]
  · intro i hidx
    have hred : scanStep findItem getItem items change = items.set i (getItem change) := by
      simp [scanStep, hD, hU, hidx]
    have hlt := (findIndexJs_eq_some (fun x => findItem x change) ([] : Obj) items i hidx).1
    exact ⟨by rw [hred]; exact List.length_set items i _,
      by rw [hred]; exact getD_set_self ([] : Obj) items i _ hlt,
      fun j hj => by rw [hred]; exact getD_set_ne ([] : Obj) items i j _ hj⟩

/-- Witness for C6: a typeless event for an unknown key prepends exactly the
extracted item to the empty collection, and for a known key replaces the
entry keeping the length. -/
theorem C6_default_replace_or_prepend_witness :
    scanStep fiId giId [] ev1 = giId ev1 :: [] ∧
      (scanStep fiId giId [obj1] ev1).length = 1 := by
  have ha := C6_default_replace_or_prepend fiId giId [] ev1 (by decide) (by decide)
  have hb := C6_default_replace_or_prepend fiId giId [obj1] ev1 (by decide) (by decide)
  exact ⟨ha.1 (by decide), (hb.2 0 (by decide)).1⟩

/-- One reducer step preserves the at-most-one-entry-per-key bound, when the
caller's identity predicate is keyed (`hFind`), the extracted item carries the
change's key (`hGet`), and merging an entry with the extracted item carries
the change's key as well (`hMerge`). -/
theorem scanStep_countP_le {K : Type} [DecidableEq K]
    (keyT : Obj → K) (keyE : Obj → K)
    (findItem : Obj → Obj → Bool) (getItem : Obj → Obj)
    (hFind : ∀ i c, findItem i c = decide (keyT i = keyE c))
    (hGet : ∀ c, keyT (getItem c) = keyE c)
    (hMerge : ∀ x c, keyT (spread x (getItem c)) = keyE c)
    (items : List Obj) (c : Obj)
    (h1 : ∀ k : K, (items.countP fun i => decide (keyT i = k)) ≤ 1) :
    ∀ k : K, ((scanStep findItem getItem items c).countP fun i => decide (keyT i = k)) ≤ 1 := by
  intro k
  by_cases hD : List.lookup "type" c = some (JVal.str "Deleted")
  · cases hidx : findIndexJs (fun i => findItem i c) items with
    | some i =>
      have hred : scanStep findItem getItem items c = items.eraseIdx i := by
        simp [scanStep, hD, hidx]
      rw [hred]
      exact le_trans ((List.eraseIdx_sublist items i).countP_le _) (h1 k)
    | none =>
      have hred : scanStep findItem getItem items c = items := by
        simp [scanStep, hD, hidx]
      rw [hred]
      exact h1 k
  · by_cases hU : List.lookup "type" c = some (JVal.str "Updated")
    · cases hidx : findIndexJs (fun i => findItem i c) items with
      | some i =>
        have hred : scanStep findItem getItem items c =
            items.set i (spread (items.getD i []) (getItem c)) := by
          simp [scanStep, hD, hU, hidx]
        rw [hred]
        have hfs := findIndexJs_eq_some (fun i => findItem i c) ([] : Obj) items i hidx
        have hkey_old : keyT (items.getD i []) = keyE c := by
          have hp : findItem (items.getD i []) c = true := hfs.2
          rw [hFind] at hp
          exact of_decide_eq_true hp
        have hpe : decide (keyT (spread (items.getD i []) (getItem c)) = k)
            = decide (keyT (items.getD i []) = k) := by
          rw [hMerge _ c, hkey_old]
        rw [countP_set_of_eq _ ([] : Obj) items i _ hfs.1 hpe]
        exact h1 k
      | none =>
        have hred : scanStep findItem getItem items c = items := by
          simp [scanStep, hD, hU, hidx]
        rw [hred]
        exact h1 k
    · cases hidx : findIndexJs (fun i => findItem i c) items with
      | some i =>
        have hred : scanStep findItem getItem items c = items.set i (getItem c) := by
          simp [scanStep, hD, hU, hidx]
        rw [hred]
        have hfs := findIndexJs_eq_some (fun i => findItem i c) ([] : Obj) items i hidx
        have hkey_old : keyT (items.getD i []) = keyE c := by
          have hp : findItem (items.getD i []) c = true := hfs.2
          rw [hFind] at hp
          exact of_decide_eq_true hp
        have hpe : decide (keyT (getItem c) = k) = decide (keyT (items.getD i []) = k) := by
          rw [hGet, hkey_old]
        rw [countP_set_of_eq _ ([] : Obj) items i _ hfs.1 hpe]
        exact h1 k
      | none =>
        have hred : scanStep findItem getItem items c = getItem c :: items := by
          simp [scanStep, hD, hU, hidx]
        rw [hred, List.countP_cons]
        by_cases hk : keyT (getItem c) = k
        · have hzero : (items.countP fun i => decide (keyT i = k)) = 0 := by
            apply List.countP_eq_zero.mpr
            intro a ha
            have hfa : findItem a c = false :=
              (findIndexJs_eq_none (fun i => findItem i c) items).mp hidx a ha
            rw [hFind] at hfa
            have hane : ¬keyT a = keyE c := of_decide_eq_false hfa
            simp only [decide_eq_true_eq]
            intro hcon
            exact hane (by rw [hcon, ← hk, hGet])
          rw [hzero]
          simp [hk]
        · have hfalse : decide (keyT (getItem c) = k) = false := decide_eq_false hk
          rw [hfalse]
          simpa using h1 k


/-- C7: starting from an initial collection with at most one entry per
logical key, after every fold step of the list-mode reducer the collection
still contains at most one entry whose identity-predicate match succeeds for
any given logical key. -/
theorem C7_at_most_one_match_invariant {K : Type} [DecidableEq K]
    (keyT : Obj → K) (keyE : Obj → K)
    (findItem : Obj → Obj → Bool) (getItem : Obj → Obj)
    (hFind : ∀ i c, findItem i c = decide (keyT i = keyE c))
    (hGet : ∀ c, keyT (getItem c) = keyE c)
    (hMerge : ∀ x c, keyT (spread x (getItem c)) = keyE c)
    (init : List Obj)
    (hinit : ∀ k : K, (init.countP fun i => decide (keyT i = k)) ≤ 1)
    (events pre : List Obj) (hpre : pre <+: events) :
    ∀ k : K,
      ((pre.foldl (scanStep findItem getItem) init).countP fun i => decide (keyT i = k)) ≤ 1 := by
  clear hpre
  induction pre generalizing init with
  | nil => exact hinit
  | cons e es ih =>
    simp only [List.foldl_cons]
    exact ih (scanStep findItem getItem init e)
      (scanStep_countP_le keyT keyE findItem getItem hFind hGet hMerge init e hinit)

theorem keyId_giId (c : Obj) : keyId (giId c) = keyId c := rfl

theorem keyId_spread_giId (x c : Obj) : keyId (spread x (giId c)) = keyId c := by
  unfold keyId
  rw [spread_lookup]
  rfl

/-- Witness for C7: folding a duplicate pair of id-1 events and an id-2 event
into the empty collection leaves at most one entry with id 1. -/
theorem C7_at_most_one_match_invariant_witness :
    (([ev1, ev1, ev2].foldl (scanStep fiId giId) []).countP
        fun i => decide (keyId i = JVal.num 1)) ≤ 1 := by
  have h := C7_at_most_one_match_invariant keyId keyId fiId giId
    (fun _ _ => rfl) keyId_giId keyId_spread_giId [] (by intro k; simp)
    [ev1, ev1, ev2] [ev1, ev1, ev2] (List.prefix_refl _)
  exact h (JVal.num 1)

theorem bufferedDeliveries_length (findItem : Obj → Obj → Bool) (getItem : Obj → Obj) :
    ∀ (ws : List (List Obj)) (h : Heap) (r : Nat),
      (bufferedDeliveries findItem getItem h r ws).length = (ws.map List.length).sum := by
  intro ws
  induction ws with
  | nil => intro h r; rfl
  | cons w ws ih =>
    intro h r
    simp only [bufferedDeliveries, List.length_append, List.length_map, List.map_cons,
      List.sum_cons, ih]

theorem windowFinal_mem_bufferedDeliveries (findItem : Obj → Obj → Bool) (getItem : Obj → Obj) :
    ∀ (ws₁ : List (List Obj)) (w : List Obj) (ws₂ : List (List Obj)) (h : Heap) (r : Nat),
      w ≠ [] →
      (runActivation findItem getItem h r (ws₁.flatten ++ w)) r ∈
        bufferedDeliveries findItem getItem h r (ws₁ ++ w :: ws₂) := by
  intro ws₁
  induction ws₁ with
  | nil =>
    intro w ws₂ h r hw
    cases w with
    | nil => exact absurd rfl hw
    | cons e w' =>
      simp only [List.flatten_nil, List.nil_append, bufferedDeliveries, List.map_cons]
      exact List.mem_append_left _ (List.mem_cons_self _ _)
  | cons w₀ t ih =>
    intro w ws₂ h r hw
    simp only [List.cons_append, bufferedDeliveries]
    refine List.mem_append_right _ ?_
    have hmem := ih w ws₂ (runActivation findItem getItem h r w₀) r hw
    have heq : runActivation findItem getItem h r ((w₀ :: t).flatten ++ w) =
        runActivation findItem getItem (runActivation findItem getItem h r w₀) r
          (t.flatten ++ w) := by
      rw [List.flatten_cons, List.append_assoc, runActivation_append]
    rw [heq]
    exact hmem

/-- C3 (amended): the buffer stage forwards one delivery per reducer emission
— the number of deliveries equals the number of processed events, nothing is
dropped in count — and the window-final folded state of every non-empty
buffer window is delivered at least once, within that window; because all
buffered emissions reference the one mutated accumulator array, the states
delivered for a window are all the window-final state, so intermediate states
inside a window are coalesced away rather than delivered. -/
theorem C3_buffer_forwards_window_final_states
    (findItem : Obj → Obj → Bool) (getItem : Obj → Obj)
    (h : Heap) (r : Nat) (ws : List (List Obj)) :
    (bufferedDeliveries findItem getItem h r ws).length = (ws.map List.length).sum ∧
      ∀ ws₁ w ws₂, ws = ws₁ ++ w :: ws₂ → w ≠ [] →
        (runActivation findItem getItem h r (ws₁.flatten ++ w)) r ∈
          bufferedDeliveries findItem getItem h r ws := by
  refine ⟨bufferedDeliveries_length _ _ ws h r, ?_⟩
  intro ws₁ w ws₂ hsplit hw
  rw [hsplit]
  exact windowFinal_mem_bufferedDeliveries _ _ ws₁ w ws₂ h r hw

/-- Witness for C3 (amended): a single window holding one event yields one
delivery, and that window's final state is delivered within the window. -/
theorem C3_buffer_forwards_window_final_states_witness :
    (bufferedDeliveries fiId giId heapEmpty 0 [[ev1]]).length
        = ([[ev1]].map List.length).sum ∧
      (runActivation fiId giId heapEmpty 0 (([] : List (List Obj)).flatten ++ [ev1])) 0 ∈
        bufferedDeliveries fiId giId heapEmpty 0 [[ev1]] := by
  have h := C3_buffer_forwards_window_final_states fiId giId heapEmpty 0 [[ev1]]
  exact ⟨h.1, h.2 [] [ev1] [] rfl (by decide)⟩

end ArgoWatch
